import Mathlib

/-!
Verification of the lock-free fixed-capacity queue (`toyqueue::fix_cap_queue`),
the single-worker runner (`playground::runner`), and the coroutine/value-storage
glue (`async::value_storage`, `async::co_task_with`) of the repository, against
its natural-language specification.

The queue is embedded as a state `Queue T`: a slot array of `cap + 1` locations
(one sentinel slot), each holding an `Option T` and a tri-state flag, plus
`head`/`tail` indices advanced modulo `cap + 1`, exactly as in
`fix_cap_queue`.  Operations are modelled at sequential-interleaving
granularity: a whole `try_push`/`try_pop` executes atomically (in the source,
the pointer CAS arbitrates ownership of one slot and the per-slot flag
handshake orders the data move; in a sequential interleaving the CAS succeeds
on the first attempt and the flag is already in its expected pre-state, which
we prove as part of the invariant: the operations never get stuck).  The
result type `Option (...)` uses `none` for "would spin forever", which never
occurs from a reachable state.
-/

namespace ToyQueue

/-- `queue_location_status` from toyqueue.h: the tri-state per-slot flag. -/
inductive Status where
  | empty
  | busy
  | not_empty
deriving DecidableEq, Repr

/-- One slot of the ring buffer: `struct location` (an `optional<value_t> data`
and an atomic `flag`, initially `empty`). -/
structure Location (T : Type) where
  data : Option T
  flag : Status
deriving DecidableEq, Repr

/-- The state of a `fix_cap_queue<T>`: slot vector of length `cap + 1`,
`head`, `tail`, and the fixed capacity. -/
structure Queue (T : Type) where
  array : List (Location T)
  head : Nat
  tail : Nat
  cap : Nat
deriving DecidableEq, Repr

/-- `next_index`: `index == cap ? 0 : index + 1`. -/
def next_index (cap index : Nat) : Nat :=
  if index = cap then 0 else index + 1

/-- The constructor `fix_cap_queue(size_t cap) : array(cap + 1), cap{cap}`:
`cap + 1` value-initialized slots (empty optional, `empty` flag), indices 0. -/
def mkQueue (T : Type) (cap : Nat) : Queue T :=
  { array := List.replicate (cap + 1) ⟨none, .empty⟩
    head := 0
    tail := 0
    cap := cap }

/-- `empty()`: `head == tail` (relaxed loads; a non-authoritative snapshot). -/
def Queue.empty (q : Queue T) : Bool :=
  q.head = q.tail

/-- Sequential `try_pop`.  If the queue looks empty (`head == tail`) it
returns `nullopt` without touching the state; otherwise the head CAS claims
slot `head`, the flag handshake requires the slot's flag to be `not_empty`
(else the source spins: modelled as the `none` outcome), and the slot's data
is moved out, the optional cleared and the flag released to `empty`. -/
def try_pop (q : Queue T) : Option (Option T × Queue T) :=
  if q.head = q.tail then
    some (none, q)
  else
    match q.array[q.head]? with
    | none => none
    | some loc =>
      if loc.flag = .not_empty then
        some (loc.data,
          { q with head := next_index q.cap q.head
                   array := q.array.set q.head ⟨none, .empty⟩ })
      else none

/-- Sequential `try_push`.  If the queue looks full (`next_index(tail) ==
head`) it returns `false` without touching the state; otherwise the tail CAS
claims slot `tail`, the flag handshake requires the slot's flag to be `empty`
(else the source spins: modelled as the `none` outcome), the value is moved
into the slot and the flag released to `not_empty`. -/
def try_push (q : Queue T) (v : T) : Option (Bool × Queue T) :=
  if next_index q.cap q.tail = q.head then
    some (false, q)
  else
    match q.array[q.tail]? with
    | none => none
    | some loc =>
      if loc.flag = .empty then
        some (true,
          { q with tail := next_index q.cap q.tail
                   array := q.array.set q.tail ⟨some v, .not_empty⟩ })
      else none

/-- Outcome of a `try_push` whose data move throws. -/
inductive PushThrowResult (T : Type) where
  | full (q : Queue T)
  | thrown (q : Queue T)
deriving DecidableEq

/-- `try_push` when the move `loc.data = std::move(value)` throws: the tail
CAS has already consumed the index; `clear_data_guard` (destroyed first) sets
the slot's optional to `nullopt`, then `flag_guard` releases the flag to its
post-state `not_empty`; the exception propagates. -/
def try_push_move_throws (q : Queue T) : Option (PushThrowResult T) :=
  if next_index q.cap q.tail = q.head then
    some (.full q)
  else
    match q.array[q.tail]? with
    | none => none
    | some loc =>
      if loc.flag = .empty then
        some (.thrown
          { q with tail := next_index q.cap q.tail
                   array := q.array.set q.tail ⟨none, .not_empty⟩ })
      else none

/-- Outcome of a `try_pop` whose data move throws. -/
inductive PopThrowResult (T : Type) where
  | wasEmpty (q : Queue T)
  | thrown (q : Queue T)
deriving DecidableEq

/-- `try_pop` when constructing the returned `optional` from
`std::move(loc.data)` throws: the head CAS has already consumed the index;
`clear_data_guard` clears the optional, then `flag_guard` releases the flag to
its post-state `empty`; the in-flight item is lost and the exception
propagates. -/
def try_pop_move_throws (q : Queue T) : Option (PopThrowResult T) :=
  if q.head = q.tail then
    some (.wasEmpty q)
  else
    match q.array[q.head]? with
    | none => none
    | some loc =>
      if loc.flag = .not_empty then
        some (.thrown
          { q with head := next_index q.cap q.head
                   array := q.array.set q.head ⟨none, .empty⟩ })
      else none

/-- Number of currently-unpopped accepted items: circular distance from
`head` to `tail` modulo `cap + 1`. -/
def count (q : Queue T) : Nat :=
  (q.tail + (q.cap + 1) - q.head) % (q.cap + 1)

/-- Circular distance from `head` to slot `i` modulo `cap + 1`. -/
def dist (q : Queue T) (i : Nat) : Nat :=
  (i + (q.cap + 1) - q.head) % (q.cap + 1)

/-- Coupling invariant between a queue state and the abstract content of its
logical segment `[head, tail)`, as a list of slot payloads (`some v` for a
normally published value, `none` for a slot poisoned by a throwing data
move).  Slot `i` holds the payload at circular distance `dist q i` with flag
`not_empty` when inside the segment, and is `⟨none, empty⟩` outside it. -/
def GInv (q : Queue T) (l : List (Option T)) : Prop :=
  q.array.length = q.cap + 1 ∧
  q.head ≤ q.cap ∧
  q.tail ≤ q.cap ∧
  l.length = count q ∧
  ∀ i, i ≤ q.cap →
    q.array[i]? = some (match l[dist q i]? with
      | some d => ⟨d, .not_empty⟩
      | none => ⟨none, .empty⟩)

/-- Invariant for normal (non-throwing) histories: every segment slot holds
an actual value. -/
def Inv (q : Queue T) (l : List T) : Prop :=
  GInv q (l.map some)

theorem mkQueue_GInv (T : Type) (cap : Nat) : GInv (mkQueue T cap) [] := by
  refine ⟨by simp [mkQueue], by simp [mkQueue], by simp [mkQueue], by simp [count, mkQueue], ?_⟩
  intro i hi
  simp only [mkQueue] at hi ⊢
  rw [List.getElem?_replicate, if_pos (by omega)]
  simp

theorem mkQueue_Inv (T : Type) (cap : Nat) : Inv (mkQueue T cap) [] :=
  mkQueue_GInv T cap

theorem next_index_le (cap i : Nat) (h : i ≤ cap) : next_index cap i ≤ cap := by
  unfold next_index; split <;> omega

theorem mod_facts (a n : Nat) (h1 : a < 2 * n) (_h0 : 0 < n) :
    (a < n ∧ a % n = a) ∨ (n ≤ a ∧ a % n = a - n) := by
  rcases Nat.lt_or_ge a n with h | h
  · exact Or.inl ⟨h, Nat.mod_eq_of_lt h⟩
  · refine Or.inr ⟨h, ?_⟩
    rw [Nat.mod_eq_sub_mod h, Nat.mod_eq_of_lt (by omega)]

theorem dist_head (q : Queue T) (hh : q.head ≤ q.cap) : dist q q.head = 0 := by
  unfold dist
  have : q.head + (q.cap + 1) - q.head = q.cap + 1 := by omega
  rw [this, Nat.mod_self]

theorem count_eq_dist_tail (q : Queue T) : count q = dist q q.tail := rfl

theorem count_le (q : Queue T) : count q ≤ q.cap := by
  unfold count
  have := Nat.mod_lt (q.tail + (q.cap + 1) - q.head) (y := q.cap + 1) (by omega)
  omega

theorem dist_inj (q : Queue T) (i j : Nat) (hh : q.head ≤ q.cap) (hi : i ≤ q.cap)
    (hj : j ≤ q.cap) (h : dist q i = dist q j) : i = j := by
  unfold dist at h
  rcases mod_facts (i + (q.cap + 1) - q.head) (q.cap + 1) (by omega) (by omega) with
    ⟨h1, e1⟩ | ⟨h1, e1⟩ <;>
  rcases mod_facts (j + (q.cap + 1) - q.head) (q.cap + 1) (by omega) (by omega) with
    ⟨h2, e2⟩ | ⟨h2, e2⟩ <;>
  rw [e1, e2] at h <;> omega

theorem count_zero_iff (q : Queue T) (hh : q.head ≤ q.cap) (ht : q.tail ≤ q.cap) :
    count q = 0 ↔ q.head = q.tail := by
  unfold count
  rcases mod_facts (q.tail + (q.cap + 1) - q.head) (q.cap + 1) (by omega) (by omega) with
    ⟨h1, e1⟩ | ⟨h1, e1⟩ <;> rw [e1] <;> omega

theorem full_iff (q : Queue T) (hh : q.head ≤ q.cap) (ht : q.tail ≤ q.cap) :
    next_index q.cap q.tail = q.head ↔ count q = q.cap := by
  unfold count next_index
  rcases mod_facts (q.tail + (q.cap + 1) - q.head) (q.cap + 1) (by omega) (by omega) with
    ⟨h1, e1⟩ | ⟨h1, e1⟩ <;> rw [e1] <;> split <;> omega

theorem count_succ (cap head tail : Nat) (hh : head ≤ cap) (ht : tail ≤ cap)
    (hlt : (tail + (cap + 1) - head) % (cap + 1) < cap) :
    (next_index cap tail + (cap + 1) - head) % (cap + 1)
      = (tail + (cap + 1) - head) % (cap + 1) + 1 := by
  unfold next_index
  split <;>
  · rcases mod_facts (tail + (cap + 1) - head) (cap + 1) (by omega) (by omega) with
      ⟨h1, e1⟩ | ⟨h1, e1⟩ <;>
    rw [e1] at hlt ⊢ <;>
    first
    | (rcases mod_facts (0 + (cap + 1) - head) (cap + 1) (by omega) (by omega) with
        ⟨h2, e2⟩ | ⟨h2, e2⟩ <;> rw [e2] <;> omega)
    | (rcases mod_facts (tail + 1 + (cap + 1) - head) (cap + 1) (by omega) (by omega) with
        ⟨h2, e2⟩ | ⟨h2, e2⟩ <;> rw [e2] <;> omega)

theorem dist_pred (cap head i : Nat) (hh : head ≤ cap) (hi : i ≤ cap) (hne : i ≠ head) :
    (i + (cap + 1) - next_index cap head) % (cap + 1)
      = (i + (cap + 1) - head) % (cap + 1) - 1 ∧
    1 ≤ (i + (cap + 1) - head) % (cap + 1) := by
  unfold next_index
  split <;>
  · rcases mod_facts (i + (cap + 1) - head) (cap + 1) (by omega) (by omega) with
      ⟨h1, e1⟩ | ⟨h1, e1⟩ <;>
    rw [e1] <;>
    first
    | (rcases mod_facts (i + (cap + 1) - 0) (cap + 1) (by omega) (by omega) with
        ⟨h2, e2⟩ | ⟨h2, e2⟩ <;> rw [e2] <;> omega)
    | (rcases mod_facts (i + (cap + 1) - (head + 1)) (cap + 1) (by omega) (by omega) with
        ⟨h2, e2⟩ | ⟨h2, e2⟩ <;> rw [e2] <;> omega)

theorem dist_new_head (cap head : Nat) (hh : head ≤ cap) :
    (head + (cap + 1) - next_index cap head) % (cap + 1) = cap := by
  unfold next_index
  split <;>
  first
  | (rcases mod_facts (head + (cap + 1) - 0) (cap + 1) (by omega) (by omega) with
      ⟨h2, e2⟩ | ⟨h2, e2⟩ <;> rw [e2] <;> omega)
  | (rcases mod_facts (head + (cap + 1) - (head + 1)) (cap + 1) (by omega) (by omega) with
      ⟨h2, e2⟩ | ⟨h2, e2⟩ <;> rw [e2] <;> omega)

theorem getElem?_concat_ne {α : Type} (l : List α) (a : α) (d : Nat) (h : d ≠ l.length) :
    (l ++ [a])[d]? = l[d]? := by
  rw [List.getElem?_append]
  split
  · rfl
  · rw [List.getElem?_eq_none (l := l) (by omega),
        List.getElem?_eq_none (by simp; omega)]

theorem dist_tail_update (q : Queue T) (t' : Nat) (a : List (Location T)) (i : Nat) :
    dist { q with tail := t', array := a } i = dist q i := rfl

/-- Pushing into a full queue (`count = cap`, i.e. `next_index(tail) == head`)
fails, leaving the state untouched. -/
theorem push_spec_full (q : Queue T) (l : List (Option T)) (v : T) (h : GInv q l)
    (hful : l.length = q.cap) : try_push q v = some (false, q) := by
  obtain ⟨hlen, hh, ht, hcnt, hslots⟩ := h
  have : next_index q.cap q.tail = q.head := by rw [full_iff q hh ht]; omega
  unfold try_push
  rw [if_pos this]

/-- Pushing into a non-full queue succeeds: the claimed slot is in its
expected pre-state (`⟨none, empty⟩`), the value is published there with flag
`not_empty`, and the abstract content gains `v` at the back. -/
theorem push_spec_ok (q : Queue T) (l : List (Option T)) (v : T) (h : GInv q l)
    (hlt : l.length < q.cap) :
    try_push q v = some (true,
      { q with tail := next_index q.cap q.tail
               array := q.array.set q.tail ⟨some v, .not_empty⟩ }) ∧
    GInv { q with tail := next_index q.cap q.tail
                  array := q.array.set q.tail ⟨some v, .not_empty⟩ } (l ++ [some v]) := by
  obtain ⟨hlen, hh, ht, hcnt, hslots⟩ := h
  have hcq : count q < q.cap := by omega
  have hfull : ¬ next_index q.cap q.tail = q.head := by
    rw [full_iff q hh ht]; omega
  have hdt : dist q q.tail = l.length := by rw [← count_eq_dist_tail]; omega
  have hnone : l[dist q q.tail]? = none := List.getElem?_eq_none (by omega)
  have hslot := hslots q.tail ht
  rw [hnone] at hslot
  constructor
  · unfold try_push
    rw [if_neg hfull, hslot]
    rfl
  · have hcnt' : count { q with tail := next_index q.cap q.tail
                                array := q.array.set q.tail ⟨some v, .not_empty⟩ }
        = count q + 1 := count_succ q.cap q.head q.tail hh ht hcq
    refine ⟨by simp [List.length_set, hlen], hh, next_index_le _ _ ht, ?_, ?_⟩
    · rw [hcnt']; simp; omega
    · intro i hi
      rw [dist_tail_update]
      by_cases hit : i = q.tail
      · subst hit
        rw [List.getElem?_set, if_pos rfl, if_pos (by omega), hdt,
          List.getElem?_concat_length]
      · rw [List.getElem?_set_ne (fun hc => hit hc.symm), hslots i hi,
          getElem?_concat_ne _ _ _ (fun hc => hit (dist_inj q i q.tail hh hi ht (by omega)))]

/-- Pushing into a non-full queue when the data move throws: the index is
consumed, the slot is normalized to `⟨none, not_empty⟩` (optional cleared by
`clear_data_guard`, flag released to its post-state by `flag_guard`), and the
abstract content gains a poisoned (`none`) entry at the back. -/
theorem push_throw_spec (q : Queue T) (l : List (Option T)) (h : GInv q l)
    (hlt : l.length < q.cap) :
    try_push_move_throws q = some (.thrown
      { q with tail := next_index q.cap q.tail
               array := q.array.set q.tail ⟨none, .not_empty⟩ }) ∧
    GInv { q with tail := next_index q.cap q.tail
                  array := q.array.set q.tail ⟨none, .not_empty⟩ } (l ++ [none]) := by
  obtain ⟨hlen, hh, ht, hcnt, hslots⟩ := h
  have hcq : count q < q.cap := by omega
  have hfull : ¬ next_index q.cap q.tail = q.head := by
    rw [full_iff q hh ht]; omega
  have hdt : dist q q.tail = l.length := by rw [← count_eq_dist_tail]; omega
  have hnone : l[dist q q.tail]? = none := List.getElem?_eq_none (by omega)
  have hslot := hslots q.tail ht
  rw [hnone] at hslot
  constructor
  · unfold try_push_move_throws
    rw [if_neg hfull, hslot]
    rfl
  · have hcnt' : count { q with tail := next_index q.cap q.tail
                                array := q.array.set q.tail ⟨none, .not_empty⟩ }
        = count q + 1 := count_succ q.cap q.head q.tail hh ht hcq
    refine ⟨by simp [List.length_set, hlen], hh, next_index_le _ _ ht, ?_, ?_⟩
    · rw [hcnt']; simp; omega
    · intro i hi
      rw [dist_tail_update]
      by_cases hit : i = q.tail
      · subst hit
        rw [List.getElem?_set, if_pos rfl, if_pos (by omega), hdt,
          List.getElem?_concat_length]
      · rw [List.getElem?_set_ne (fun hc => hit hc.symm), hslots i hi,
          getElem?_concat_ne _ _ _ (fun hc => hit (dist_inj q i q.tail hh hi ht (by omega)))]

/-- Popping an empty queue (`head == tail`) returns `nullopt`, leaving the
state untouched. -/
theorem pop_spec_nil (q : Queue T) (h : GInv q []) : try_pop q = some (none, q) := by
  obtain ⟨hlen, hh, ht, hcnt, hslots⟩ := h
  have : q.head = q.tail := by
    rw [← count_zero_iff q hh ht]; simp at hcnt; omega
  unfold try_pop
  rw [if_pos this]

/-- Popping a non-empty queue succeeds: the claimed slot carries flag
`not_empty`, its payload (the oldest entry) is handed out, the slot is
normalized to `⟨none, empty⟩`, and the abstract content loses its front. -/
theorem pop_spec_cons (q : Queue T) (d : Option T) (rest : List (Option T))
    (h : GInv q (d :: rest)) :
    try_pop q = some (d,
      { q with head := next_index q.cap q.head
               array := q.array.set q.head ⟨none, .empty⟩ }) ∧
    GInv { q with head := next_index q.cap q.head
                  array := q.array.set q.head ⟨none, .empty⟩ } rest := by
  obtain ⟨hlen, hh, ht, hcnt, hslots⟩ := h
  simp only [List.length_cons] at hcnt
  have hcle : count q ≤ q.cap := count_le q
  have hne : ¬ q.head = q.tail := by
    rw [← count_zero_iff q hh ht]; omega
  have hslot := hslots q.head hh
  rw [dist_head q hh] at hslot
  simp only [List.getElem?_cons_zero] at hslot
  constructor
  · unfold try_pop
    rw [if_neg hne, hslot]
    rfl
  · have hcnt' : count { q with head := next_index q.cap q.head
                                array := q.array.set q.head ⟨none, .empty⟩ }
        = count q - 1 := by
      refine (dist_pred q.cap q.head q.tail hh ht ?_).1
      intro hc
      exact hne hc.symm
    refine ⟨by simp [List.length_set, hlen], next_index_le _ _ hh, ht, ?_, ?_⟩
    · rw [hcnt']; omega
    · intro i hi
      by_cases hih : i = q.head
      · subst hih
        have hd' : dist { q with head := next_index q.cap q.head
                                 array := q.array.set q.head ⟨none, .empty⟩ } q.head
            = q.cap := dist_new_head q.cap q.head hh
        have hnone : rest[q.cap]? = (none : Option (Option T)) :=
          List.getElem?_eq_none (by omega)
        rw [hd', List.getElem?_set, if_pos rfl, if_pos (by omega), hnone]
      · obtain ⟨hd', hpos⟩ := dist_pred q.cap q.head i hh hi hih
        have hd'' : dist { q with head := next_index q.cap q.head
                                  array := q.array.set q.head ⟨none, .empty⟩ } i
            = dist q i - 1 := hd'
        have hpos' : 1 ≤ dist q i := hpos
        rw [hd'', List.getElem?_set_ne (fun hc => hih hc.symm), hslots i hi]
        obtain ⟨k, hk⟩ : ∃ k, dist q i = k + 1 := ⟨dist q i - 1, by omega⟩
        rw [hk, List.getElem?_cons_succ]
        simp

/-- Popping a non-empty queue when constructing the returned optional throws:
the index is consumed, the slot is normalized to `⟨none, empty⟩` (optional
cleared, flag released to its post-state), the front entry is lost. -/
theorem pop_throw_spec (q : Queue T) (d : Option T) (rest : List (Option T))
    (h : GInv q (d :: rest)) :
    try_pop_move_throws q = some (.thrown
      { q with head := next_index q.cap q.head
               array := q.array.set q.head ⟨none, .empty⟩ }) ∧
    GInv { q with head := next_index q.cap q.head
                  array := q.array.set q.head ⟨none, .empty⟩ } rest := by
  obtain ⟨hlen, hh, ht, hcnt, hslots⟩ := h
  have hne : ¬ q.head = q.tail := by
    rw [← count_zero_iff q hh ht]; simp at hcnt; omega
  have hslot := hslots q.head hh
  rw [dist_head q hh] at hslot
  simp only [List.getElem?_cons_zero] at hslot
  refine ⟨?_, (pop_spec_cons q d rest ⟨hlen, hh, ht, hcnt, hslots⟩).2⟩
  unfold try_pop_move_throws
  rw [if_neg hne, hslot]
  rfl

/-- Case analysis for `try_push` from a state satisfying the invariant: the
push either observes a full queue and fails with the state untouched, or
succeeds appending the value. -/
theorem try_push_cases (q : Queue T) (l : List (Option T)) (v : T) (h : GInv q l) :
    (l.length = q.cap ∧ try_push q v = some (false, q)) ∨
    (l.length < q.cap ∧ ∃ q', try_push q v = some (true, q') ∧ GInv q' (l ++ [some v])) := by
  have hlen : l.length ≤ q.cap := by
    have := count_le q
    have := h.2.2.2.1
    omega
  rcases Nat.lt_or_ge l.length q.cap with hlt | hge
  · exact Or.inr ⟨hlt, _, (push_spec_ok q l v h hlt).1, (push_spec_ok q l v h hlt).2⟩
  · have : l.length = q.cap := by omega
    exact Or.inl ⟨this, push_spec_full q l v h this⟩

/-- Case analysis for `try_pop` from a state satisfying the invariant: the
pop either observes an empty queue and fails with the state untouched, or
succeeds handing out the front payload. -/
theorem try_pop_cases (q : Queue T) (l : List (Option T)) (h : GInv q l) :
    (l = [] ∧ try_pop q = some (none, q)) ∨
    (∃ d rest q', l = d :: rest ∧ try_pop q = some (d, q') ∧ GInv q' rest) := by
  cases l with
  | nil => exact Or.inl ⟨rfl, pop_spec_nil q h⟩
  | cons d rest =>
    exact Or.inr ⟨d, rest, _, rfl, (pop_spec_cons q d rest h).1, (pop_spec_cons q d rest h).2⟩

/-- One operation of a client history: a `try_push` of a value, or a
`try_pop`. -/
inductive Op (T : Type) where
  | push (v : T)
  | pop
deriving DecidableEq

/-- Runs a sequence of `try_push`/`try_pop` calls.  Returns the list of
values whose push was accepted (`try_push` returned `true`), the list of
values returned by successful pops, both in call order, and the final state.
`none` means some operation would spin forever, which never happens from a
reachable state (`run_isSome`). -/
def run (q : Queue T) : List (Op T) → Option (List T × List T × Queue T)
  | [] => some ([], [], q)
  | .push v :: ops =>
    match try_push q v with
    | none => none
    | some (ok, q') =>
      (run q' ops).map (fun r => (if ok then v :: r.1 else r.1, r.2.1, r.2.2))
  | .pop :: ops =>
    match try_pop q with
    | none => none
    | some (r0, q') =>
      (run q' ops).map (fun r =>
        (r.1, (match r0 with | some v => v :: r.2.1 | none => r.2.1), r.2.2))

/-- The sequential FIFO refinement: from any state coupled to abstract
content `l`, running any operation sequence terminates (no operation ever
gets stuck on a slot flag), and the successful pops are exactly the prefix of
`l` followed by the accepted pushes, in order: `l ++ accepted = popped ++
leftover`, with the leftover being the final abstract content. -/
theorem run_spec (ops : List (Op T)) : ∀ (q : Queue T) (l : List T), Inv q l →
    ∃ acc pops qf lf, run q ops = some (acc, pops, qf) ∧ Inv qf lf ∧
      l ++ acc = pops ++ lf := by
  induction ops with
  | nil =>
    intro q l h
    exact ⟨[], [], q, l, rfl, h, by simp⟩
  | cons op ops ih =>
    intro q l h
    cases op with
    | push v =>
      rcases try_push_cases q (l.map some) v h with ⟨_, he⟩ | ⟨_, q', he, hinv⟩
      · obtain ⟨acc, pops, qf, lf, hrun, hinvf, heq⟩ := ih q l h
        refine ⟨acc, pops, qf, lf, ?_, hinvf, heq⟩
        simp only [run, he, hrun, Option.map_some]
        rfl
      · have hinv' : Inv q' (l ++ [v]) := by
          unfold Inv
          rw [List.map_append]
          exact hinv
        obtain ⟨acc, pops, qf, lf, hrun, hinvf, heq⟩ := ih q' (l ++ [v]) hinv'
        refine ⟨v :: acc, pops, qf, lf, ?_, hinvf, ?_⟩
        · simp only [run, he, hrun, Option.map_some]
          rfl
        · rw [← heq]
          simp
    | pop =>
      rcases try_pop_cases q (l.map some) h with ⟨hnil, he⟩ | ⟨d, rest, q', hcons, he, hinv⟩
      · have hlnil : l = [] := by
          cases l
          · rfl
          · simp at hnil
        obtain ⟨acc, pops, qf, lf, hrun, hinvf, heq⟩ := ih q l h
        refine ⟨acc, pops, qf, lf, ?_, hinvf, heq⟩
        simp only [run, he, hrun, Option.map_some]
        rfl
      · obtain ⟨x, xs, hlx, hdx, hrestx⟩ : ∃ x xs, l = x :: xs ∧ d = some x ∧ rest = xs.map some := by
          cases l with
          | nil => simp at hcons
          | cons x xs =>
            simp only [List.map_cons, List.cons.injEq] at hcons
            exact ⟨x, xs, rfl, hcons.1.symm, hcons.2.symm⟩
        subst hlx hdx hrestx
        obtain ⟨acc, pops, qf, lf, hrun, hinvf, heq⟩ := ih q' xs hinv
        refine ⟨acc, x :: pops, qf, lf, ?_, hinvf, ?_⟩
        · simp only [run, he, hrun, Option.map_some]
          rfl
        · simp only [List.cons_append, heq]

/-- Totality under the generalized invariant (poisoned slots allowed): no
operation sequence ever gets stuck, i.e. the queue stays usable. -/
theorem run_isSome (ops : List (Op T)) : ∀ (q : Queue T) (l : List (Option T)),
    GInv q l → (run q ops).isSome := by
  induction ops with
  | nil => intro q l _; rfl
  | cons op ops ih =>
    intro q l h
    cases op with
    | push v =>
      rcases try_push_cases q l v h with ⟨_, he⟩ | ⟨_, q', he, hinv⟩
      · simp only [run, he]
        have := ih q l h
        cases hr : run q ops
        · rw [hr] at this; simp at this
        · simp
      · simp only [run, he]
        have := ih q' (l ++ [some v]) hinv
        cases hr : run q' ops
        · rw [hr] at this; simp at this
        · simp
    | pop =>
      rcases try_pop_cases q l h with ⟨_, he⟩ | ⟨d, rest, q', _, he, hinv⟩
      · simp only [run, he]
        have := ih q l h
        cases hr : run q ops
        · rw [hr] at this; simp at this
        · simp
      · simp only [run, he]
        have := ih q' rest hinv
        cases hr : run q' ops
        · rw [hr] at this; simp at this
        · simp

/-- Characterization of the `empty()` snapshot against the invariant: with no
concurrent producer (the sequential model), `empty()` returns true exactly
when the abstract content is empty. -/
theorem empty_iff (q : Queue T) (l : List (Option T)) (h : GInv q l) :
    q.empty = true ↔ l = [] := by
  obtain ⟨hlen, hh, ht, hcnt, _⟩ := h
  unfold Queue.empty
  simp only [decide_eq_true_eq]
  rw [← count_zero_iff q hh ht]
  constructor
  · intro hc
    cases l with
    | nil => rfl
    | cons d rest => simp at hcnt; omega
  · intro hl
    subst hl
    simp at hcnt
    omega

/-- With capacity 0 the single sentinel slot makes `next_index(tail)` always
equal `head`: every `try_push` fails, every `try_pop` returns `nullopt`, and
the state never changes. -/
theorem run_cap_zero (T : Type) (ops : List (Op T)) :
    run (mkQueue T 0) ops = some ([], [], mkQueue T 0) := by
  induction ops with
  | nil => rfl
  | cons op ops ih =>
    cases op with
    | push v =>
      have he := push_spec_full (mkQueue T 0) [] v (mkQueue_GInv T 0) (by simp [mkQueue])
      simp only [run, he, ih]
      rfl
    | pop =>
      have he := pop_spec_nil (mkQueue T 0) (mkQueue_GInv T 0)
      simp only [run, he, ih]
      rfl

end ToyQueue

namespace Playground

open ToyQueue

/-- The shutdown drain loop `playground::runner::drain` (for a cancellable
unit type): `while (!queue.empty()) { auto task = queue.try_pop(); if
(task.has_value()) task.value().cancel(); }`.  Collects the cancelled units
in pop order; `fuel` bounds the iteration (in the source the loop terminates
because producers have stopped and each iteration pops one slot), `none`
meaning fuel ran out or an operation stuck — neither happens from an
invariant state with enough fuel. -/
def drain (T : Type) : Nat → Queue T → List T → Option (List T × Queue T)
  | 0, _, _ => none
  | fuel + 1, q, acc =>
    if q.empty then some (acc.reverse, q)
    else
      match try_pop q with
      | none => none
      | some (r, q') =>
        drain T fuel q' (match r with | some u => u :: acc | none => acc)

/-- The worker loop `playground::runner::run`, with the stop flag already
set or not: each iteration acquires the semaphore (`none` models blocking
forever on a 0 count), then checks the stop token: if stopped, drain and
return; otherwise pop and execute one unit.  Returns (executed units,
cancelled units, final queue). -/
def runLoop (T : Type) : Nat → Queue T → Nat → Bool → Option (List T × List T × Queue T)
  | 0, _, _, _ => none
  | fuel + 1, q, sem, stop =>
    if sem = 0 then none
    else if stop then
      (drain T (fuel + 1) q []).map (fun r => (([] : List T), r.1, r.2))
    else
      match try_pop q with
      | none => none
      | some (r, q') =>
        (runLoop T fuel q' (sem - 1) stop).map
          (fun p => ((match r with | some u => u :: p.1 | none => p.1), p.2.1, p.2.2))

/-- Draining an invariant queue with content `l` and fuel `> |l|` cancels
exactly the (`l.length`) queued units in FIFO order and leaves an empty,
still-valid queue. -/
theorem drain_spec (T : Type) : ∀ (l : List T) (q : Queue T) (fuel : Nat) (acc : List T),
    Inv q l → l.length < fuel →
    ∃ qf, drain T fuel q acc = some (acc.reverse ++ l, qf) ∧ Inv qf [] ∧ qf.empty = true := by
  intro l
  induction l with
  | nil =>
    intro q fuel acc h hf
    have hemp : q.empty = true := by
      rw [empty_iff q _ h]
      rfl
    obtain ⟨fuel, rfl⟩ : ∃ f, fuel = f + 1 := ⟨fuel - 1, by omega⟩
    refine ⟨q, ?_, h, hemp⟩
    unfold drain
    rw [if_pos hemp]
    simp
  | cons x xs ih =>
    intro q fuel acc h hf
    have hemp : ¬ q.empty = true := by
      rw [empty_iff q _ h]
      simp
    obtain ⟨fuel, rfl⟩ : ∃ f, fuel = f + 1 := ⟨fuel - 1, by omega⟩
    have hpop := pop_spec_cons q (some x) (xs.map some) h
    obtain ⟨qf, hd, hi, he⟩ := ih _ fuel (x :: acc) hpop.2 (by simp at hf ⊢; omega)
    refine ⟨qf, ?_, hi, he⟩
    unfold drain
    rw [if_neg hemp, hpop.1]
    exact hd.trans (by simp)

/-- Shutdown scenario: the queue holds the units `l`, none executed yet, the
stop request is visible and the semaphore count is positive (the destructor
released it).  The worker acquires, sees the stop, drains — cancelling every
queued unit exactly once, executing none — and returns. -/
theorem runLoop_shutdown (T : Type) (q : Queue T) (l : List T) (sem : Nat)
    (h : Inv q l) (hsem : 1 ≤ sem) :
    ∃ qf, runLoop T (l.length + 1) q sem true = some ([], l, qf) ∧
      Inv qf [] ∧ qf.empty = true := by
  obtain ⟨qf, hd, hi, he⟩ := drain_spec T l q (l.length + 1) [] h (by omega)
  refine ⟨qf, ?_, hi, he⟩
  unfold runLoop
  rw [if_neg (by omega), if_pos rfl, hd]
  simp

end Playground

namespace ClaimLoop

/-- Outcome of one `compare_exchange_weak` attempt as the loop sees it: the
CAS either succeeds, or fails and deposits the freshly observed pointer
value into the expected-value variable (`cur_head`/`cur_tail`). -/
inductive CasRes where
  | ok
  | fail (newVal : Nat)
deriving DecidableEq, Repr

/-- The head-claim loop of `try_pop`:
`while ((not_empty = cur_head != tail.load()) && !head.CAS(cur_head, next))`.
Each environment entry supplies the observed `tail` value for the iteration
and, when the check passes, the CAS outcome.  Returns
(claimed?, `cur_head` at exit, number of CAS attempts made); `none` when the
environment trace ran out before the loop exited. -/
def popClaimLoop : Nat → Nat → List (Nat × CasRes) → Option (Bool × Nat × Nat)
  | _, _, [] => none
  | curHead, cas, (tObs, cr) :: rest =>
    if curHead = tObs then some (false, curHead, cas)
    else
      match cr with
      | .ok => some (true, curHead, cas + 1)
      | .fail v => popClaimLoop v (cas + 1) rest

/-- The tail-claim loop of `try_push`:
`while ((not_full = next_index(cur_tail) != head.load()) && !tail.CAS(cur_tail, next_tail))`,
with `next_tail` recomputed from the refreshed `cur_tail` after a CAS
failure.  Same conventions as `popClaimLoop`. -/
def pushClaimLoop (cap : Nat) : Nat → Nat → List (Nat × CasRes) → Option (Bool × Nat × Nat)
  | _, _, [] => none
  | curTail, cas, (hObs, cr) :: rest =>
    if ToyQueue.next_index cap curTail = hObs then some (false, curTail, cas)
    else
      match cr with
      | .ok => some (true, curTail, cas + 1)
      | .fail v => pushClaimLoop cap v (cas + 1) rest

end ClaimLoop

namespace Async

/-- An exception value (the contents of a `std::exception_ptr`),
abstractly. -/
structure Exn where
  id : Nat
deriving DecidableEq, Repr

/-- `async::value_storage<T>`: the `value_storage_base` `exception_ptr` slot
plus the stored payload (shown for the `optional`-backed non-trivial
specialization; the trivial/reference/void specializations differ only in
how the payload is held). -/
structure value_storage (α : Type) where
  e_ptr : Option Exn
  value : Option α
deriving DecidableEq, Repr

/-- `value_storage_base::execute`: invoke the producer inside `try/catch`; a
raised failure is stored into `e_ptr` instead of propagating, so the result
is always `.ok` — no exception escapes `execute`. -/
def value_storage.execute (s : value_storage α) (f : Except Exn α) :
    Except Exn (value_storage α) :=
  match f with
  | .ok v => .ok { s with value := some v }
  | .error e => .ok { s with e_ptr := some e }

/-- `value_storage_base::get`: re-raise the captured failure when one is
stored, otherwise hand out the stored value (`none` models reading a value
that was never produced). -/
def value_storage.get (s : value_storage α) : Option (Except Exn α) :=
  match s.e_ptr with
  | some e => some (.error e)
  | none => s.value.map .ok

/-- `to_execute_t::operator()`: `retval->execute([..] { return op(...); });
h.resume();` — run the delegated operation into the storage, then resume the
awaiting coroutine.  The boolean records that the resume happened. -/
def to_execute_call (retval : value_storage α) (f : Except Exn α) :
    Except Exn (value_storage α × Bool) :=
  (retval.execute f).map (fun s => (s, true))

/-- `dispatcher::awaitable::await_resume`: `return std::move(retval).get()`. -/
def await_resume (s : value_storage α) : Option (Except Exn α) :=
  s.get

/-- The promise state of `co_task_with<T>`: the `return_mixin`'s
`value_storage` for the task's result and the completion flag (whether
`done->release()` has happened). -/
structure promise_state (α : Type) where
  retval : value_storage α
  done : Bool
deriving DecidableEq, Repr

/-- `return_value_mixin::return_value`: `retval.set(value); _return();`
(store the value, release the completion semaphore). -/
def return_value (p : promise_state α) (v : α) : promise_state α :=
  { p with retval := { p.retval with value := some v }, done := true }

/-- `co_task_with::promise_type::unhandled_exception() {}` — the body is
empty: the in-flight exception is discarded; nothing is stored into the
storage and the completion semaphore is not released. -/
def unhandled_exception (p : promise_state α) (_e : Exn) : promise_state α :=
  p

/-- Completion of the coroutine body as C++ lowers it: a normal `co_return`
goes through `return_value`; an exception escaping the body goes through
`promise.unhandled_exception()`. -/
def run_co_body (p : promise_state α) (body : Except Exn α) : promise_state α :=
  match body with
  | .ok v => return_value p v
  | .error e => unhandled_exception p e

/-- `std::binary_semaphore::release` on the `done` semaphore: the counter
saturates at the maximum 1. -/
def release (c : Nat) : Nat :=
  min (c + 1) 1

/-- `std::binary_semaphore::acquire`: decrement the counter, or block
(`none`) while it is 0. -/
def acquire (c : Nat) : Option Nat :=
  if c = 0 then none else some (c - 1)

/-- `co_task_with::sync_wait`: `done->acquire()`. -/
def sync_wait (c : Nat) : Option Nat :=
  acquire c

/-- `k` successive `sync_wait` calls against the same completion
semaphore (each blocks until it can decrement). -/
def iter_sync_wait : Nat → Nat → Option Nat
  | 0, c => some c
  | k + 1, c => (sync_wait c).bind (iter_sync_wait k)

end Async

/-- Claim C1 (capacity bound): in every reachable state (coupled to content
`l` by the invariant) the number of accepted-but-not-yet-popped items never
exceeds the configured capacity; whenever it equals the capacity,
`try_push` returns `false` leaving the state unchanged, and a `try_push`
attempted immediately after a successful `try_pop` from that full queue
succeeds. -/
theorem C1_capacity_bound {T : Type} (q : ToyQueue.Queue T) (l : List T) (v w : T)
    (h : ToyQueue.Inv q l) :
    l.length ≤ q.cap ∧
    (l.length = q.cap →
      ToyQueue.try_push q v = some (false, q) ∧
      ∀ x xs, l = x :: xs →
        ∃ q', ToyQueue.try_pop q = some (some x, q') ∧
          ∃ q'', ToyQueue.try_push q' w = some (true, q'')) := by
  have hle : l.length ≤ q.cap := by
    have h1 := h.2.2.2.1
    have h2 := ToyQueue.count_le q
    simp only [List.length_map] at h1
    omega
  refine ⟨hle, fun hful =>
    ⟨ToyQueue.push_spec_full q (l.map some) v h (by simpa using hful), ?_⟩⟩
  intro x xs hx
  subst hx
  have hpop := ToyQueue.pop_spec_cons q (some x) (xs.map some) h
  refine ⟨_, hpop.1, ?_⟩
  have hlt : (List.map some xs).length < q.cap := by
    simp only [List.length_map]
    simp only [List.length_cons] at hful
    omega
  exact ⟨_, (ToyQueue.push_spec_ok _ (xs.map some) w hpop.2 hlt).1⟩

/-- Witness for C1 at a concrete full queue of capacity 1 holding the single
value 5. -/
theorem C1_capacity_bound_witness :
    ([5] : List Nat).length ≤ 1 ∧
    (([5] : List Nat).length = 1 →
      ToyQueue.try_push (⟨[⟨some 5, .not_empty⟩, ⟨none, .empty⟩], 0, 1, 1⟩ : ToyQueue.Queue Nat) 7
          = some (false, ⟨[⟨some 5, .not_empty⟩, ⟨none, .empty⟩], 0, 1, 1⟩) ∧
      ∀ x xs, ([5] : List Nat) = x :: xs →
        ∃ q', ToyQueue.try_pop
            (⟨[⟨some 5, .not_empty⟩, ⟨none, .empty⟩], 0, 1, 1⟩ : ToyQueue.Queue Nat)
            = some (some x, q') ∧
          ∃ q'', ToyQueue.try_push q' 9 = some (true, q'')) :=
  C1_capacity_bound ⟨[⟨some 5, .not_empty⟩, ⟨none, .empty⟩], 0, 1, 1⟩ [5] 7 9
    (by unfold ToyQueue.Inv ToyQueue.GInv; decide)

/-- Claim C2 (no loss, FIFO): running any `try_push`/`try_pop` sequence from
a fresh queue terminates; the successfully popped values are exactly a
prefix of the accepted pushed values, in push order (`acc = pops ++
leftover`, the leftover being exactly the still-queued content), so every
accepted value is popped by exactly one successful pop once the queue is
drained (`empty` final state implies `acc = pops`). -/
theorem C2_no_loss_fifo (T : Type) (cap : Nat) (ops : List (ToyQueue.Op T)) :
    ∃ acc pops qf lf,
      ToyQueue.run (ToyQueue.mkQueue T cap) ops = some (acc, pops, qf) ∧
      ToyQueue.Inv qf lf ∧
      acc = pops ++ lf ∧
      (qf.empty = true → acc = pops) := by
  obtain ⟨acc, pops, qf, lf, hrun, hinv, heq⟩ :=
    ToyQueue.run_spec ops (ToyQueue.mkQueue T cap) [] (ToyQueue.mkQueue_Inv T cap)
  simp only [List.nil_append] at heq
  refine ⟨acc, pops, qf, lf, hrun, hinv, heq, ?_⟩
  intro hemp
  have hlf : lf = [] := by
    have h2 := (ToyQueue.empty_iff qf (lf.map some) hinv).1 hemp
    cases lf with
    | nil => rfl
    | cons y ys => simp at h2
  subst hlf
  simpa using heq

/-- Claim C3 (drain on shutdown): a runner whose queue holds the units `l`,
none executing, with the stop request visible and the destructor's semaphore
release granted, drains: the worker cancels each queued unit exactly once
(in order), executes none, leaves the queue empty and valid, and its loop
returns (the thread terminates). -/
theorem C3_drain_on_shutdown {T : Type} (q : ToyQueue.Queue T) (l : List T) (sem : Nat)
    (h : ToyQueue.Inv q l) (hsem : 1 ≤ sem) :
    ∃ qf, Playground.runLoop T (l.length + 1) q sem true = some ([], l, qf) ∧
      ToyQueue.Inv qf [] ∧ qf.empty = true :=
  Playground.runLoop_shutdown T q l sem h hsem

/-- Witness for C3: two queued units 1, 2 in a capacity-2 queue, semaphore
count 3 (two submissions plus the destructor's release). -/
theorem C3_drain_on_shutdown_witness :
    ∃ qf, Playground.runLoop Nat 3
        (⟨[⟨some 1, .not_empty⟩, ⟨some 2, .not_empty⟩, ⟨none, .empty⟩], 0, 2, 2⟩ :
          ToyQueue.Queue Nat) 3 true
        = some ([], [1, 2], qf) ∧ ToyQueue.Inv qf [] ∧ qf.empty = true :=
  C3_drain_on_shutdown
    ⟨[⟨some 1, .not_empty⟩, ⟨some 2, .not_empty⟩, ⟨none, .empty⟩], 0, 2, 2⟩ [1, 2] 3
    (by unfold ToyQueue.Inv ToyQueue.GInv; decide) (by decide)

/-- Claim C4 (exception capture and single re-raise point): for every
producer outcome `f`, the worker-side call (`to_execute_t::operator()`)
never propagates a failure out of `execute` (result is `.ok`), the
continuation is resumed, and the awaiting coroutine's `await_resume`
observes exactly `f` — a captured failure is re-raised there, a value is
delivered there. -/
theorem C4_exception_capture {α : Type} (f : Except Async.Exn α) :
    ∃ s, Async.to_execute_call ⟨none, none⟩ f = .ok (s, true) ∧
      Async.await_resume s = some f := by
  cases f with
  | ok v => exact ⟨⟨none, some v⟩, rfl, rfl⟩
  | error e => exact ⟨⟨some e, none⟩, rfl, rfl⟩

/-- Claim C5 as stated is false on the code: a failure return does not
require a confirming compare-and-swap.  When the very first full/empty check
fails, the `&&` short-circuits and the operation reports failure with zero
CAS attempts made (here: `popClaimLoop` starting at head 0, observing tail
0, returns failure with CAS count 0). -/
theorem C5_counterexample :
    ¬ ∀ (h0 : Nat) (env : List (Nat × ClaimLoop.CasRes)) (idx k : Nat),
        ClaimLoop.popClaimLoop h0 0 env = some (false, idx, k) → 1 ≤ k := by
  intro hcl
  exact absurd (hcl 0 [(0, .ok)] 0 0 rfl) (by decide)

/-- Claim C5 amended: when the full/empty check fails, the operation reports
failure immediately (no confirming CAS); a CAS failure never produces the
failure result — the check-then-CAS pair is retried with the pointer value
observed by the failed CAS. -/
theorem C5_check_then_cas (tObs hObs curHead curTail v cap cas : Nat)
    (rest : List (Nat × ClaimLoop.CasRes)) (cr : ClaimLoop.CasRes) :
    (curHead = tObs →
      ClaimLoop.popClaimLoop curHead cas ((tObs, cr) :: rest)
        = some (false, curHead, cas)) ∧
    (curHead ≠ tObs →
      ClaimLoop.popClaimLoop curHead cas ((tObs, .fail v) :: rest)
        = ClaimLoop.popClaimLoop v (cas + 1) rest) ∧
    (ToyQueue.next_index cap curTail = hObs →
      ClaimLoop.pushClaimLoop cap curTail cas ((hObs, cr) :: rest)
        = some (false, curTail, cas)) ∧
    (ToyQueue.next_index cap curTail ≠ hObs →
      ClaimLoop.pushClaimLoop cap curTail cas ((hObs, .fail v) :: rest)
        = ClaimLoop.pushClaimLoop cap v (cas + 1) rest) := by
  refine ⟨?_, ?_, ?_, ?_⟩
  · intro h
    unfold ClaimLoop.popClaimLoop
    rw [if_pos h]
  · intro h
    simp only [ClaimLoop.popClaimLoop]
    rw [if_neg h]
  · intro h
    unfold ClaimLoop.pushClaimLoop
    rw [if_pos h]
  · intro h
    simp only [ClaimLoop.pushClaimLoop]
    rw [if_neg h]

/-- Witness for the amended C5 at concrete loop states. -/
theorem C5_check_then_cas_witness :
    ClaimLoop.popClaimLoop 4 0 [(4, .ok)] = some (false, 4, 0) ∧
    ClaimLoop.popClaimLoop 4 0 [(6, .fail 5)] = ClaimLoop.popClaimLoop 5 1 [] ∧
    ClaimLoop.pushClaimLoop 3 3 0 [(0, .ok)] = some (false, 3, 0) ∧
    ClaimLoop.pushClaimLoop 3 1 0 [(0, .fail 2)] = ClaimLoop.pushClaimLoop 3 2 1 [] :=
  ⟨(C5_check_then_cas 4 0 4 3 5 3 0 [] .ok).1 rfl,
   (C5_check_then_cas 6 0 4 3 5 3 0 [] .ok).2.1 (by decide),
   (C5_check_then_cas 0 0 0 3 5 3 0 [] .ok).2.2.1 rfl,
   (C5_check_then_cas 0 0 0 1 2 3 0 [] .ok).2.2.2 (by decide)⟩

/-- Claim C6 (move-throw containment): from any invariant state, a throwing
data move during publication (`try_push`) leaves the claimed slot normalized
to `⟨nullopt, not_empty⟩` (optional cleared, flag released to its
post-state), and during extraction (`try_pop`) leaves it `⟨nullopt, empty⟩`;
in both cases the index was already consumed, the in-flight item is lost,
the invariant still holds (with a poisoned entry) and every subsequent
operation sequence runs without getting stuck. -/
theorem C6_move_throw_containment {T : Type} (q : ToyQueue.Queue T)
    (L : List (Option T)) (h : ToyQueue.GInv q L) :
    (L.length < q.cap →
      ∃ q', ToyQueue.try_push_move_throws q = some (.thrown q') ∧
        q'.array[q.tail]? = some ⟨none, .not_empty⟩ ∧
        ToyQueue.GInv q' (L ++ [none]) ∧
        ∀ ops, (ToyQueue.run q' ops).isSome = true) ∧
    (∀ d rest, L = d :: rest →
      ∃ q', ToyQueue.try_pop_move_throws q = some (.thrown q') ∧
        q'.array[q.head]? = some ⟨none, .empty⟩ ∧
        ToyQueue.GInv q' rest ∧
        ∀ ops, (ToyQueue.run q' ops).isSome = true) := by
  have hlen := h.1
  have hh := h.2.1
  have ht := h.2.2.1
  constructor
  · intro hlt
    obtain ⟨he, hinv⟩ := ToyQueue.push_throw_spec q L h hlt
    refine ⟨_, he, ?_, hinv, fun ops => ToyQueue.run_isSome ops _ _ hinv⟩
    rw [List.getElem?_set, if_pos rfl, if_pos (by omega)]
  · intro d rest hL
    subst hL
    obtain ⟨he, hinv⟩ := ToyQueue.pop_throw_spec q d rest h
    refine ⟨_, he, ?_, hinv, fun ops => ToyQueue.run_isSome ops _ _ hinv⟩
    rw [List.getElem?_set, if_pos rfl, if_pos (by omega)]

/-- Witness for C6 at a concrete capacity-2 queue holding one value. -/
theorem C6_move_throw_containment_witness :
    (([some 5] : List (Option Nat)).length < 2 →
      ∃ q', ToyQueue.try_push_move_throws
          (⟨[⟨some 5, .not_empty⟩, ⟨none, .empty⟩, ⟨none, .empty⟩], 0, 1, 2⟩ :
            ToyQueue.Queue Nat) = some (.thrown q') ∧
        q'.array[1]? = some ⟨none, .not_empty⟩ ∧
        ToyQueue.GInv q' ([some 5] ++ [none]) ∧
        ∀ ops, (ToyQueue.run q' ops).isSome = true) ∧
    (∀ d rest, ([some 5] : List (Option Nat)) = d :: rest →
      ∃ q', ToyQueue.try_pop_move_throws
          (⟨[⟨some 5, .not_empty⟩, ⟨none, .empty⟩, ⟨none, .empty⟩], 0, 1, 2⟩ :
            ToyQueue.Queue Nat) = some (.thrown q') ∧
        q'.array[0]? = some ⟨none, .empty⟩ ∧
        ToyQueue.GInv q' rest ∧
        ∀ ops, (ToyQueue.run q' ops).isSome = true) :=
  C6_move_throw_containment
    ⟨[⟨some 5, .not_empty⟩, ⟨none, .empty⟩, ⟨none, .empty⟩], 0, 1, 2⟩ [some 5]
    (by unfold ToyQueue.GInv; decide)

/-- Claim C7 (empty() as termination predicate): under the invariant — in
particular with no concurrent producer, the sequential model — the
head/tail snapshot `empty()` returns `true` exactly when the queue holds no
unpopped item; so once producers have stopped, a `true` result implies the
queue is truly empty. -/
theorem C7_empty_snapshot {T : Type} (q : ToyQueue.Queue T) (l : List T)
    (h : ToyQueue.Inv q l) :
    q.empty = true ↔ l = [] := by
  rw [ToyQueue.empty_iff q (l.map some) h]
  cases l <;> simp

/-- Witness for C7 at a fresh capacity-3 queue. -/
theorem C7_empty_snapshot_witness :
    (ToyQueue.mkQueue Nat 3).empty = true ↔ ([] : List Nat) = [] :=
  C7_empty_snapshot (ToyQueue.mkQueue Nat 3) [] (ToyQueue.mkQueue_Inv Nat 3)

/-- Claim C8 (coroutine-body failures swallowed): `unhandled_exception() {}`
discards the in-flight exception — the promise state is unchanged, nothing
is stored into the task's value storage (`get` still sees nothing) and the
completion semaphore is not released, so the failure is never observable via
`get()`, `wait()` or `sync_wait()`. -/
theorem C8_exception_swallowed {α : Type} (p : Async.promise_state α) (e : Async.Exn) :
    Async.run_co_body p (.error e) = p ∧
    (Async.run_co_body (⟨⟨none, none⟩, false⟩ : Async.promise_state α) (.error e)).retval.get
      = none ∧
    (Async.run_co_body (⟨⟨none, none⟩, false⟩ : Async.promise_state α) (.error e)).done
      = false :=
  ⟨rfl, rfl, rfl⟩

/-- Claim C9 as stated is false on the code: `sync_wait` is
`done->acquire()` on a `binary_semaphore`, and `acquire` consumes the
single released permit — after a completed task's signal was released, two
successive `sync_wait` calls do not both return: the second blocks. -/
theorem C9_counterexample :
    ¬ ∀ k, (Async.iter_sync_wait k (Async.release 0)).isSome = true := by
  intro hcl
  exact absurd (hcl 2) (by decide)

/-- Claim C9 amended: after completion (one `release`), the first
`sync_wait` — from whichever thread — returns immediately, but the acquire
consumes the permit: the completion signal does not stay satisfied, and a
second `sync_wait` blocks (the caller-responsibility caveat in the spec). -/
theorem C9_single_waiter :
    (∀ c, Async.sync_wait (Async.release c) = some 0) ∧
    Async.iter_sync_wait 2 (Async.release 0) = none := by
  constructor
  · intro c
    unfold Async.sync_wait Async.release
    rw [Nat.min_eq_right (by omega)]
    rfl
  · rfl

/-- Claim C10 (zero capacity accepts nothing): with capacity 0 the single
sentinel slot makes `next_index(tail)` always coincide with `head`; every
`try_push` in any operation sequence returns `false`, every `try_pop`
returns `nullopt`, and the state never changes. -/
theorem C10_zero_cap_rejects (T : Type) (ops : List (ToyQueue.Op T)) :
    ToyQueue.run (ToyQueue.mkQueue T 0) ops = some ([], [], ToyQueue.mkQueue T 0) :=
  ToyQueue.run_cap_zero T ops
